import Mathlib

/-!
Shallow embedding of the otter configuration service core
(internal/store/memory.go, internal/store/sqlite.go, internal/server/server.go
and the auth middleware file) together with proofs of the spec claims.

Machine integers (`int64` versions, Unix timestamps) are modelled as `Int`;
wall-clock time is passed explicitly as a `now : Int` parameter (Unix seconds,
as produced by `time.Now().Unix()`).  Go `sync.Map` values are modelled as
association lists with unique keys; `map` reads are first-match lookups and
writes replace the binding for the key.
-/

namespace Otter

/-- `model.Config` (internal/model/config.go).  `typ` is the Go `Type` field,
`ns`/`grp` the `Namespace`/`Group` fields; timestamps are Unix seconds. -/
structure Config where
  ns : String
  grp : String
  key : String
  value : String
  typ : String
  version : Int
  createdBy : String
  updatedBy : String
  createdAt : Int
  updatedAt : Int
deriving Repr, DecidableEq

/-- `model.ConfigHistory` (internal/model/config history type in server.go). -/
structure ConfigHistory where
  id : Int
  ns : String
  grp : String
  key : String
  value : String
  typ : String
  version : Int
  opType : String
  createdAt : Int
deriving Repr, DecidableEq

/-- `model.User` (internal/model/user.go). -/
structure User where
  id : Int
  username : String
  password : String
  role : String
  status : String
  createdAt : Int
  updatedAt : Int
deriving Repr, DecidableEq

/-- First-match lookup in an association list, the read of a Go map. -/
def lookupA {α : Type} (m : List (String × α)) (k : String) : Option α :=
  (m.find? (fun p => p.1 == k)).map (fun p => p.2)

/-- Write to an association list, replacing any binding for `k` (Go map store). -/
def insertA {α : Type} (m : List (String × α)) (k : String) (v : α) :
    List (String × α) :=
  (k, v) :: m.filter (fun p => p.1 != k)

/-- Remove the binding for `k` (Go map delete). -/
def eraseA {α : Type} (m : List (String × α)) (k : String) : List (String × α) :=
  m.filter (fun p => p.1 != k)

/-- State of `store.InMemoryStore` (internal/store/memory.go): configs keyed by
the concatenated `namespace + "/" + group + "/" + key`, history lists keyed the
same way, users keyed by username (the Go map key always equals
`user.Username`), and the namespace set. -/
structure InMemoryStore where
  data : List (String × Config)
  history : List (String × List ConfigHistory)
  users : List User
  namespaces : List String
deriving Repr, DecidableEq

/-- `store.NewInMemoryStore`: empty maps plus the default `public` namespace. -/
def NewInMemoryStore : InMemoryStore :=
  { data := [], history := [], users := [], namespaces := ["public"] }

/-- The composite map key `namespace + "/" + group + "/" + key`. -/
def configKey (ns grp key : String) : String :=
  ns ++ "/" ++ grp ++ "/" ++ key

/-- `InMemoryStore.Get`: map load; a miss is Go `ErrNotFound`, here `none`. -/
def InMemoryStore.Get (s : InMemoryStore) (ns grp key : String) : Option Config :=
  lookupA s.data (configKey ns grp key)

/-- The type defaulting performed inside `InMemoryStore.Put`: an empty `Type`
field becomes `"text"` before the record is stored. -/
def normalizeType (c : Config) : Config :=
  if c.typ = "" then { c with typ := "text" } else c

/-- `InMemoryStore.Put`: upsert of the (type-defaulted) config at its key. -/
def InMemoryStore.Put (s : InMemoryStore) (c : Config) : InMemoryStore :=
  { s with data := insertA s.data (configKey c.ns c.grp c.key) (normalizeType c) }

/-- `InMemoryStore.Delete`: idempotent map delete. -/
def InMemoryStore.DeleteConfig (s : InMemoryStore) (ns grp key : String) :
    InMemoryStore :=
  { s with data := eraseA s.data (configKey ns grp key) }

/-- `InMemoryStore.List`: all configs whose namespace and group match. -/
def InMemoryStore.ListConfigs (s : InMemoryStore) (ns grp : String) : List Config :=
  (s.data.map (fun p => p.2)).filter (fun c => c.ns == ns && c.grp == grp)

/-- `InMemoryStore.CreateHistory`: append the record at the end of the key's
history list (`LoadOrStore` of an empty list, then `append`, then `Store`). -/
def InMemoryStore.CreateHistory (s : InMemoryStore) (h : ConfigHistory) :
    InMemoryStore :=
  let k := configKey h.ns h.grp h.key
  let hs := (lookupA s.history k).getD []
  { s with history := insertA s.history k (hs ++ [h]) }

/-- The history list currently stored for a key (empty when absent). -/
def histList (s : InMemoryStore) (ns grp key : String) : List ConfigHistory :=
  (lookupA s.history (configKey ns grp key)).getD []

/-- `InMemoryStore.ListHistory`: both Go return paths carry a `nil` error, so
the result is always `.ok` — an empty list for a key with no history. -/
def InMemoryStore.ListHistory (s : InMemoryStore) (ns grp key : String) :
    Except String (List ConfigHistory) :=
  match lookupA s.history (configKey ns grp key) with
  | none => .ok []
  | some val => .ok val

/-- `InMemoryStore.CreateNamespace`: rejects the empty name and duplicates. -/
def InMemoryStore.CreateNamespace (s : InMemoryStore) (ns : String) :
    Except String InMemoryStore :=
  if ns = "" then .error "namespace cannot be empty"
  else if s.namespaces.contains ns then .error "namespace already exists"
  else .ok { s with namespaces := ns :: s.namespaces }

/-- `InMemoryStore.DeleteNamespace`: rejects the empty name, the default
`public` namespace, and any namespace still referenced by a config. -/
def InMemoryStore.DeleteNamespace (s : InMemoryStore) (ns : String) :
    Except String InMemoryStore :=
  if ns = "" then .error "namespace cannot be empty"
  else if ns = "public" then .error "cannot delete default public namespace"
  else if s.data.any (fun p => p.2.ns == ns) then
    .error "cannot delete namespace with existing configs"
  else .ok { s with namespaces := s.namespaces.filter (fun n => n != ns) }

/-- `InMemoryStore.GetUser`: lookup by username. -/
def InMemoryStore.GetUser (s : InMemoryStore) (username : String) : Option User :=
  s.users.find? (fun u => u.username == username)

/-- `InMemoryStore.ListUsers`: every stored user. -/
def InMemoryStore.ListUsers (s : InMemoryStore) : List User :=
  s.users

/-- `InMemoryStore.CreateUser`: fails when the username is taken. -/
def InMemoryStore.CreateUser (s : InMemoryStore) (u : User) :
    Except String InMemoryStore :=
  if (s.GetUser u.username).isSome then .error "user already exists"
  else .ok { s with users := u :: s.users }

/-- `InMemoryStore.DeleteUser`: `ErrNotFound` when absent, else remove. -/
def InMemoryStore.DeleteUser (s : InMemoryStore) (username : String) :
    Except String InMemoryStore :=
  if (s.GetUser username).isSome then
    .ok { s with users := s.users.filter (fun u => u.username != username) }
  else .error "not found"

/-- A token usage record (`store.TokenUsageRecord`): request count, last usage
time and window expiry, all in Unix seconds. -/
structure TokenUsageRecord where
  count : Int
  lastUsage : Int
  expiresAt : Int
deriving Repr, DecidableEq

/-- `InMemoryStore.IncrementTokenUsage`: load-or-create the record (count 0,
one-minute window), replace it by a fresh one when the window has expired
(`now.After(ExpiresAt)` is a strict comparison), then increment the count and
stamp the usage time.  Returns the new count and the updated table. -/
def IncrementTokenUsage (now : Int) (tbl : List (String × TokenUsageRecord))
    (token : String) : Int × List (String × TokenUsageRecord) :=
  let record0 := (lookupA tbl token).getD { count := 0, lastUsage := now, expiresAt := now + 60 }
  let record1 := if now > record0.expiresAt then
      ({ count := 0, lastUsage := now, expiresAt := now + 60 } : TokenUsageRecord)
    else record0
  let record2 : TokenUsageRecord :=
    { count := record1.count + 1, lastUsage := now, expiresAt := record1.expiresAt }
  (record2.count, insertA tbl token record2)

/-- `InMemoryStore.CheckTokenRateLimit`: allow when no record exists or the
window has expired, otherwise allow exactly when `count < limit`. -/
def CheckTokenRateLimit (now : Int) (tbl : List (String × TokenUsageRecord))
    (token : String) (limit : Int) : Bool :=
  match lookupA tbl token with
  | none => true
  | some record =>
    if now > record.expiresAt then true else decide (record.count < limit)

/-- `InMemoryStore.IsTokenBlacklisted`: a hit whose expiry has passed is lazily
removed and reported as not blacklisted. -/
def IsTokenBlacklisted (now : Int) (bl : List (String × Int)) (token : String) :
    Bool × List (String × Int) :=
  match lookupA bl token with
  | none => (false, bl)
  | some exp => if now > exp then (false, eraseA bl token) else (true, bl)

/-- Outcome of the auth middleware, distinguishing the rate-limit rejection
(HTTP 429) from the unauthorized rejections (HTTP 401). -/
inductive AuthDecision where
  | unauthorized
  | rateLimited
  | authorized
deriving Repr, DecidableEq

/-- The request data the auth middleware inspects: presence of the
authorization header, number of space-separated parts in it, the bearer token
string, and the outcome of JWT parsing (signature/expiry validity and the
token-kind claim), which the middleware consults only after the blacklist and
rate-limit checks. -/
structure AuthRequest where
  hasAuthHeader : Bool
  headerParts : Nat
  token : String
  tokenValid : Bool
  tokenType : String
deriving Repr, DecidableEq

/-- The shared mutable state the auth middleware touches: the token blacklist
(token to expiry) and the token usage table. -/
structure AuthState where
  blacklist : List (String × Int)
  usage : List (String × TokenUsageRecord)
deriving Repr, DecidableEq

/-- `Server.authMiddleware`, in the order of the code: header present, header
well-formed, not blacklisted, rate limit (limit 100 per minute) checked before
the usage increment, then JWT validity and the `access` kind tag. -/
def authMiddleware (now : Int) (st : AuthState) (req : AuthRequest) :
    AuthDecision × AuthState :=
  if !req.hasAuthHeader then (.unauthorized, st)
  else if req.headerParts ≠ 2 then (.unauthorized, st)
  else
    let blres := IsTokenBlacklisted now st.blacklist req.token
    let st1 : AuthState := { st with blacklist := blres.2 }
    if blres.1 then (.unauthorized, st1)
    else if !(CheckTokenRateLimit now st1.usage req.token 100) then (.rateLimited, st1)
    else
      let st2 : AuthState := { st1 with usage := (IncrementTokenUsage now st1.usage req.token).2 }
      if !req.tokenValid then (.unauthorized, st2)
      else if req.tokenType ≠ "access" then (.unauthorized, st2)
      else (.authorized, st2)

/-- Result of a config handler: HTTP status, resulting store state, the
configs handed to `watcher.Notify`, and the JSON response body when the
handler answers with a config. -/
structure HandlerResult where
  status : Nat
  store : InMemoryStore
  notifications : List Config
  body : Option Config
deriving Repr, DecidableEq

/-- The `validTypes` set of `putConfigHandler` (server.go line 834): the empty
string is accepted and later defaulted to `"text"`. -/
def validTypes : List String :=
  ["", "text", "properties", "json", "yaml", "yml", "xml"]

/-- The JSON body of a put request; `value` carries a gin `required` binding,
so an empty value fails request binding with HTTP 400. -/
structure PutRequest where
  value : String
  typ : String
deriving Repr, DecidableEq

/-- `Server.putConfigHandler`: validate the body and the declared type, build
the config with `Version = time.Now().Unix()`, store it, append an `UPDATE`
history record with the same version and value, and notify watchers. -/
def putConfigHandler (now : Int) (username : String) (s : InMemoryStore)
    (ns grp key : String) (req : PutRequest) : HandlerResult :=
  if req.value = "" then { status := 400, store := s, notifications := [], body := none }
  else if !(validTypes.contains req.typ) then
    { status := 400, store := s, notifications := [], body := none }
  else
    let configType := if req.typ = "" then "text" else req.typ
    let config : Config :=
      { ns := ns, grp := grp, key := key, value := req.value, typ := configType,
        version := now, createdBy := username, updatedBy := username,
        createdAt := now, updatedAt := now }
    let s1 := s.Put config
    let h : ConfigHistory :=
      { id := 0, ns := ns, grp := grp, key := key, value := req.value,
        typ := configType, version := now, opType := "UPDATE", createdAt := now }
    let s2 := s1.CreateHistory h
    { status := 201, store := s2, notifications := [config], body := some config }

/-- `Server.rollbackConfigHandler`: list the key's history, find the record
with the requested version (404 when absent), re-put its value and type under
a fresh `time.Now().Unix()` version, append a `ROLLBACK` record, and notify.
`store.Put` defaults an empty type in place on the shared pointer, so the
stored, recorded, notified and returned config all carry the defaulted type. -/
def rollbackConfigHandler (now : Int) (username : String) (s : InMemoryStore)
    (ns grp key : String) (version : Int) : HandlerResult :=
  match s.ListHistory ns grp key with
  | .error _ => { status := 500, store := s, notifications := [], body := none }
  | .ok histories =>
    match histories.find? (fun h => h.version == version) with
    | none => { status := 404, store := s, notifications := [], body := none }
    | some target =>
      let config := normalizeType
        { ns := ns, grp := grp, key := key, value := target.value, typ := target.typ,
          version := now, createdBy := username, updatedBy := username,
          createdAt := now, updatedAt := now }
      let s1 := s.Put config
      let h : ConfigHistory :=
        { id := 0, ns := ns, grp := grp, key := key, value := target.value,
          typ := config.typ, version := now, opType := "ROLLBACK", createdAt := now }
      let s2 := s1.CreateHistory h
      { status := 200, store := s2, notifications := [config], body := some config }

/-- Number of stored users whose role is `admin`. -/
def adminCount (s : InMemoryStore) : Nat :=
  (s.ListUsers.filter (fun u => u.role == "admin")).length

/-- `Server.deleteUserHandler`: 404 when the user is absent; when the target
has the admin role and the current user set holds at most one admin, reject
with 403 and leave the set unchanged; otherwise delete. -/
def deleteUserHandler (s : InMemoryStore) (username : String) :
    Nat × InMemoryStore :=
  match s.GetUser username with
  | none => (404, s)
  | some user =>
    if user.role == "admin" && decide (adminCount s ≤ 1) then (403, s)
    else
      match s.DeleteUser username with
      | .ok s1 => (204, s1)
      | .error _ => (500, s)

/-- Row filter of the sqlite/postgres `ListHistory` query (`WHERE namespace =
? AND "group" = ? AND key = ?`). -/
def historyKeyMatches (ns grp key : String) (h : ConfigHistory) : Bool :=
  h.ns == ns && h.grp == grp && h.key == key

/-- The `ORDER BY version DESC` ordering of the SQL `ListHistory` queries. -/
def versionDescOrder (a b : ConfigHistory) : Prop :=
  b.version ≤ a.version

instance : DecidableRel versionDescOrder :=
  fun a b => inferInstanceAs (Decidable (b.version ≤ a.version))

instance : IsTotal ConfigHistory versionDescOrder :=
  ⟨fun a b => le_total b.version a.version⟩

instance : IsTrans ConfigHistory versionDescOrder :=
  ⟨fun _ _ _ hab hbc => le_trans hbc hab⟩

/-- `SQLiteStore.ListHistory` / `PostgresStore.ListHistory`, modelled over the
table contents: select the key's rows and sort them by version descending. -/
def sqliteListHistory (rows : List ConfigHistory) (ns grp key : String) :
    List ConfigHistory :=
  List.insertionSort versionDescOrder (rows.filter (historyKeyMatches ns grp key))

/-- A history record with version 1, used as concrete input. -/
def histRecA : ConfigHistory :=
  { id := 0, ns := "n", grp := "g", key := "k", value := "a", typ := "text",
    version := 1, opType := "UPDATE", createdAt := 1 }

/-- A history record with version 2 for the same key, created after
`histRecA`. -/
def histRecB : ConfigHistory :=
  { id := 0, ns := "n", grp := "g", key := "k", value := "b", typ := "text",
    version := 2, opType := "UPDATE", createdAt := 2 }

/-- Store state after creating `histRecA` and then `histRecB`. -/
def twoHistStore : InMemoryStore :=
  (NewInMemoryStore.CreateHistory histRecA).CreateHistory histRecB

/-- A concrete config used as witness input. -/
def cfgW : Config :=
  { ns := "n", grp := "g", key := "k", value := "pg://x", typ := "text",
    version := 7, createdBy := "u", updatedBy := "u", createdAt := 7, updatedAt := 7 }

/-- Result of a first put at Unix second 100 on a fresh store. -/
def cxPut1 : HandlerResult :=
  putConfigHandler 100 "u" NewInMemoryStore "n" "g" "k" { value := "a", typ := "text" }

/-- Result of a second put on the same key within the same Unix second. -/
def cxPut2 : HandlerResult :=
  putConfigHandler 100 "u" cxPut1.store "n" "g" "k" { value := "b", typ := "text" }

/-- Result of rolling `n/g/k` back to version 100 at Unix second 100, right
after `cxPut1` wrote version 100. -/
def cxRollback : HandlerResult :=
  rollbackConfigHandler 100 "u" cxPut1.store "n" "g" "k" 100

/-- The config written by a put of value `a` at Unix second 100. -/
def cxCfg100 : Config :=
  { ns := "n", grp := "g", key := "k", value := "a", typ := "text", version := 100,
    createdBy := "u", updatedBy := "u", createdAt := 100, updatedAt := 100 }

/-- The config written by a put of value `b` at Unix second 101. -/
def cxCfg101 : Config :=
  { ns := "n", grp := "g", key := "k", value := "b", typ := "text", version := 101,
    createdBy := "u", updatedBy := "u", createdAt := 101, updatedAt := 101 }

/-- All usage counts in a token usage table are at most `limit`. -/
def UsageBounded (limit : Int) (tbl : List (String × TokenUsageRecord)) : Prop :=
  ∀ p ∈ tbl, p.2.count ≤ limit

/-- A store holding one admin (`alice`) and one plain user (`bob`). -/
def oneAdminStore : InMemoryStore :=
  { NewInMemoryStore with users :=
      [{ id := 1, username := "alice", password := "p", role := "admin",
         status := "active", createdAt := 0, updatedAt := 0 },
       { id := 2, username := "bob", password := "p", role := "user",
         status := "active", createdAt := 0, updatedAt := 0 }] }

/-- A store holding two admins (`alice` and `carol`). -/
def twoAdminStore : InMemoryStore :=
  { NewInMemoryStore with users :=
      [{ id := 1, username := "alice", password := "p", role := "admin",
         status := "active", createdAt := 0, updatedAt := 0 },
       { id := 3, username := "carol", password := "p", role := "admin",
         status := "active", createdAt := 0, updatedAt := 0 }] }

/-- A usage table whose single token sits exactly at the limit of 100 inside a
window that is still open at second 60. -/
def atLimitUsage : List (String × TokenUsageRecord) :=
  [("tok", { count := 100, lastUsage := 50, expiresAt := 110 })]

/-- Auth state carrying `atLimitUsage` and an empty blacklist. -/
def atLimitAuthState : AuthState :=
  { blacklist := [], usage := atLimitUsage }

/-- A well-formed request bearing the token `tok`. -/
def tokRequest : AuthRequest :=
  { hasAuthHeader := true, headerParts := 2, token := "tok",
    tokenValid := true, tokenType := "access" }

/-- A usage table whose single token has a window that expired at second 110,
with 37 requests counted in the old window. -/
def expiredUsage : List (String × TokenUsageRecord) :=
  [("tok", { count := 37, lastUsage := 50, expiresAt := 110 })]

/-! ## Helper lemmas -/

theorem lookupA_insertA_self {α : Type} (m : List (String × α)) (k : String) (v : α) :
    lookupA (insertA m k v) k = some v := by
  simp [lookupA, insertA]

theorem ListHistory_eq_ok (s : InMemoryStore) (ns grp key : String) :
    s.ListHistory ns grp key = .ok (histList s ns grp key) := by
  unfold InMemoryStore.ListHistory histList
  cases lookupA s.history (configKey ns grp key) <;> rfl

theorem histList_Put (s : InMemoryStore) (c : Config) (ns grp key : String) :
    histList (s.Put c) ns grp key = histList s ns grp key := rfl

theorem histList_CreateHistory_self (s : InMemoryStore) (h : ConfigHistory) :
    histList (s.CreateHistory h) h.ns h.grp h.key
      = histList s h.ns h.grp h.key ++ [h] := by
  simp [histList, InMemoryStore.CreateHistory, lookupA_insertA_self]

theorem normalizeType_version (c : Config) : (normalizeType c).version = c.version := by
  unfold normalizeType; split <;> rfl

theorem normalizeType_value (c : Config) : (normalizeType c).value = c.value := by
  unfold normalizeType; split <;> rfl

/-! ## Claim theorems -/

/-- Claim C10: `ListHistory` on a key for which no history record was ever created
returns an empty list with a nil error — never NotFound. -/
theorem listHistory_empty_ok (s : InMemoryStore) (ns grp key : String)
    (h : lookupA s.history (configKey ns grp key) = none) :
    s.ListHistory ns grp key = .ok [] := by
  simp [InMemoryStore.ListHistory, h]

/-- Witness for claim C10: the fresh store has no history for `n/g/k`. -/
theorem listHistory_empty_ok_witness :
    lookupA NewInMemoryStore.history (configKey "n" "g" "k") = none ∧
      NewInMemoryStore.ListHistory "n" "g" "k" = .ok [] :=
  ⟨by decide, listHistory_empty_ok NewInMemoryStore "n" "g" "k" (by decide)⟩

/-- Claim C8: `Get` immediately after `Put` on the same (namespace, group, key)
returns exactly the config the put wrote: the stored record is the put
argument with the empty-type default applied, so value and version are those
of the put argument and the type is as well whenever it was nonempty. -/
theorem get_after_put (s : InMemoryStore) (c : Config) :
    (s.Put c).Get c.ns c.grp c.key = some (normalizeType c) ∧
    (normalizeType c).value = c.value ∧
    (normalizeType c).version = c.version ∧
    (c.typ ≠ "" → (normalizeType c).typ = c.typ) := by
  refine ⟨?_, normalizeType_value c, normalizeType_version c, ?_⟩
  · simp [InMemoryStore.Get, InMemoryStore.Put, lookupA_insertA_self]
  · intro h
    simp [normalizeType, h]

/-- Witness for claim C8 at a concrete config with nonempty type. -/
theorem get_after_put_witness :
    (NewInMemoryStore.Put cfgW).Get cfgW.ns cfgW.grp cfgW.key = some (normalizeType cfgW) ∧
    (normalizeType cfgW).value = cfgW.value ∧
    (normalizeType cfgW).version = cfgW.version ∧
    (normalizeType cfgW).typ = cfgW.typ :=
  ⟨(get_after_put NewInMemoryStore cfgW).1, (get_after_put NewInMemoryStore cfgW).2.1,
    (get_after_put NewInMemoryStore cfgW).2.2.1,
    (get_after_put NewInMemoryStore cfgW).2.2.2 (by decide)⟩

/-- Claim C4: a rollback naming a version that appears in no history record of the
key fails with 404 and performs no mutation: the store is unchanged, no
history record is appended, nothing is notified, no body is returned. -/
theorem rollback_absent_version_not_found (now : Int) (username : String)
    (s : InMemoryStore) (ns grp key : String) (v : Int)
    (h : ∀ rec ∈ histList s ns grp key, rec.version ≠ v) :
    rollbackConfigHandler now username s ns grp key v
      = { status := 404, store := s, notifications := [], body := none } := by
  have hfind : (histList s ns grp key).find? (fun rec => rec.version == v) = none := by
    apply List.find?_eq_none.mpr
    intro rec hmem
    simpa using h rec hmem
  simp [rollbackConfigHandler, ListHistory_eq_ok, hfind]

/-- Witness for claim C4: rolling `n/g/k` back to version 5, which is absent from the
two-record history, leaves the store untouched. -/
theorem rollback_absent_version_not_found_witness :
    (∀ rec ∈ histList twoHistStore "n" "g" "k", rec.version ≠ 5) ∧
    rollbackConfigHandler 100 "u" twoHistStore "n" "g" "k" 5
      = { status := 404, store := twoHistStore, notifications := [], body := none } :=
  ⟨by decide, rollback_absent_version_not_found 100 "u" twoHistStore "n" "g" "k" 5 (by decide)⟩

/-- Claim C7: deleting the default `public` namespace always fails regardless of
content; deleting any namespace referenced by a config fails; deleting an
existing-name-shaped (nonempty, non-default) namespace with no configs
succeeds; and the `public` namespace survives every `DeleteNamespace` call. -/
theorem deleteNamespace_spec :
    (∀ s : InMemoryStore,
        s.DeleteNamespace "public" = .error "cannot delete default public namespace") ∧
    (∀ (s : InMemoryStore) (ns : String), s.data.any (fun p => p.2.ns == ns) = true →
        ∃ e, s.DeleteNamespace ns = .error e) ∧
    (∀ (s : InMemoryStore) (ns : String), ns ≠ "public" → ns ≠ "" →
        s.data.any (fun p => p.2.ns == ns) = false →
        s.DeleteNamespace ns
          = .ok { s with namespaces := s.namespaces.filter (fun n => n != ns) }) ∧
    (∀ (s : InMemoryStore) (ns : String), "public" ∈ s.namespaces →
        "public" ∈ (match s.DeleteNamespace ns with
          | .ok s1 => s1
          | .error _ => s).namespaces) := by
  refine ⟨fun s => rfl, ?_, ?_, ?_⟩
  · intro s ns h
    unfold InMemoryStore.DeleteNamespace
    split_ifs
    · exact ⟨_, rfl⟩
    · exact ⟨_, rfl⟩
    · exact ⟨_, rfl⟩
  · intro s ns h1 h2 h3
    simp [InMemoryStore.DeleteNamespace, h1, h2, h3]
  · intro s ns hmem
    unfold InMemoryStore.DeleteNamespace
    split_ifs with h1 h2 h3
    · exact hmem
    · exact hmem
    · exact hmem
    · simp only [List.mem_filter]
      refine ⟨hmem, ?_⟩
      have hne : "public" ≠ ns := fun hc => h2 hc.symm
      simp [hne]

/-- Witness for claim C7: deleting the empty namespace `teamA` from the fresh store
succeeds, and `public` survives the call. -/
theorem deleteNamespace_spec_witness :
    ("teamA" : String) ≠ "public" ∧ ("teamA" : String) ≠ "" ∧
    NewInMemoryStore.data.any (fun p => p.2.ns == "teamA") = false ∧
    NewInMemoryStore.DeleteNamespace "teamA"
      = .ok { NewInMemoryStore with
                namespaces := NewInMemoryStore.namespaces.filter (fun n => n != "teamA") } ∧
    "public" ∈ (match NewInMemoryStore.DeleteNamespace "teamA" with
      | .ok s1 => s1
      | .error _ => NewInMemoryStore).namespaces :=
  ⟨by decide, by decide, by decide,
    deleteNamespace_spec.2.2.1 NewInMemoryStore "teamA" (by decide) (by decide) (by decide),
    deleteNamespace_spec.2.2.2 NewInMemoryStore "teamA" (by decide)⟩

/-- Counterexample to claim C9: the claim lists `markdown` among the accepted content
types, but `putConfigHandler` rejects it with a 400 validation error, while it
accepts `yml`, which is outside the claimed enumeration. -/
theorem putConfig_type_enum_counterexample :
    (putConfigHandler 100 "u" NewInMemoryStore "n" "g" "k"
      { value := "v", typ := "markdown" }).status = 400 ∧
    (putConfigHandler 100 "u" NewInMemoryStore "n" "g" "k"
      { value := "v", typ := "yml" }).status = 201 := by
  decide

/-- Claim C9 amended: for any request body with a nonempty value, the put handler
succeeds exactly when the declared type lies in the code's enumeration
(empty string, text, properties, json, yaml, yml, xml — the empty string being
defaulted to text), and it never inspects the payload; any type outside that
enumeration is rejected with a 400 validation error and no mutation. -/
theorem putConfig_type_enum (now : Int) (u : String) (s : InMemoryStore)
    (ns grp key v ty : String) (hv : v ≠ "") :
    ((putConfigHandler now u s ns grp key { value := v, typ := ty }).status = 201
        ↔ ty ∈ validTypes) ∧
    (ty ∉ validTypes →
      putConfigHandler now u s ns grp key { value := v, typ := ty }
        = { status := 400, store := s, notifications := [], body := none }) := by
  constructor
  · constructor
    · intro hst
      by_contra hmem
      have : (putConfigHandler now u s ns grp key { value := v, typ := ty }).status = 400 := by
        simp [putConfigHandler, hv, hmem]
      omega
    · intro hmem
      simp [putConfigHandler, hv, hmem]
  · intro hmem
    simp [putConfigHandler, hv, hmem]

/-- Witness for claim C9 amended: a nonempty `properties` request is accepted. -/
theorem putConfig_type_enum_witness :
    ("v" : String) ≠ "" ∧
    ((putConfigHandler 100 "u" NewInMemoryStore "n" "g" "k"
        { value := "v", typ := "properties" }).status = 201
      ↔ ("properties" : String) ∈ validTypes) :=
  ⟨by decide,
    (putConfig_type_enum 100 "u" NewInMemoryStore "n" "g" "k" "v" "properties" (by decide)).1⟩

/-- Counterexample to claim C3: in the in-memory backend, after creating the version-1
record and then the version-2 record for `n/g/k`, `ListHistory` returns them
oldest first — not ordered by version descending as the claim states for
every backend. -/
theorem listHistory_order_counterexample :
    twoHistStore.ListHistory "n" "g" "k" = .ok [histRecA, histRecB] ∧
    ¬ List.Sorted versionDescOrder [histRecA, histRecB] := by
  constructor
  · rfl
  · decide

/-- Claim C3 amended: the SQL backends (sqlite and postgres share the query) return
a key's history ordered by version descending, while the in-memory backend
appends each new record at the end of the key's list and returns that list
unchanged, i.e. in creation order, oldest first. -/
theorem listHistory_order :
    (∀ (s : InMemoryStore) (h : ConfigHistory),
        histList (s.CreateHistory h) h.ns h.grp h.key
          = histList s h.ns h.grp h.key ++ [h]) ∧
    (∀ (s : InMemoryStore) (ns grp key : String),
        s.ListHistory ns grp key = .ok (histList s ns grp key)) ∧
    (∀ (rows : List ConfigHistory) (ns grp key : String),
        List.Sorted versionDescOrder (sqliteListHistory rows ns grp key)) :=
  ⟨histList_CreateHistory_self, ListHistory_eq_ok,
    fun _ _ _ _ => List.sorted_insertionSort _ _⟩

/-- Counterexample to claim C1: two successful puts to the same key within the same
Unix second both get version 100, so the second successful mutation does not
strictly increase the version; and a rollback in that same second to version
100 succeeds and reassigns version 100, reusing the rolled-back-to version. -/
theorem version_strict_increase_counterexample :
    cxPut1.status = 201 ∧ cxPut2.status = 201 ∧
    cxPut1.body.map Config.version = some 100 ∧
    cxPut2.body.map Config.version = some 100 ∧
    ¬ ((100 : Int) < 100) ∧
    cxRollback.status = 200 ∧
    cxRollback.body.map Config.version = some 100 := by
  decide

/-- Claim C1 amended: every successful mutation (put or rollback) stamps the config
with version equal to the wall-clock Unix second `now` of the request, so a
successful mutation assigns a version strictly greater than the previous one
exactly when the clock strictly advanced between the two mutations; within one
clock second versions collide, and a rollback can reuse the rolled-back-to
version. -/
theorem mutation_version_is_clock :
    (∀ (now : Int) (u : String) (s : InMemoryStore) (ns grp key : String)
        (req : PutRequest) (cfg : Config),
        (putConfigHandler now u s ns grp key req).body = some cfg →
        cfg.version = now) ∧
    (∀ (now : Int) (u : String) (s : InMemoryStore) (ns grp key : String)
        (v : Int) (cfg : Config),
        (rollbackConfigHandler now u s ns grp key v).body = some cfg →
        cfg.version = now) ∧
    (∀ (now1 now2 : Int) (u1 u2 : String) (s1 s2 : InMemoryStore)
        (ns1 grp1 key1 ns2 grp2 key2 : String) (req1 req2 : PutRequest)
        (cfg1 cfg2 : Config),
        (putConfigHandler now1 u1 s1 ns1 grp1 key1 req1).body = some cfg1 →
        (putConfigHandler now2 u2 s2 ns2 grp2 key2 req2).body = some cfg2 →
        now1 < now2 → cfg1.version < cfg2.version) := by
  have hput : ∀ (now : Int) (u : String) (s : InMemoryStore) (ns grp key : String)
      (req : PutRequest) (cfg : Config),
      (putConfigHandler now u s ns grp key req).body = some cfg →
      cfg.version = now := by
    intro now u s ns grp key req cfg h
    unfold putConfigHandler at h
    split at h
    · simp at h
    · split at h
      · simp at h
      · simp only [Option.some.injEq] at h
        rw [← h]
  have hrb : ∀ (now : Int) (u : String) (s : InMemoryStore) (ns grp key : String)
      (v : Int) (cfg : Config),
      (rollbackConfigHandler now u s ns grp key v).body = some cfg →
      cfg.version = now := by
    intro now u s ns grp key v cfg h
    unfold rollbackConfigHandler at h
    split at h
    · simp at h
    · split at h
      · simp at h
      · simp only [Option.some.injEq] at h
        rw [← h, normalizeType_version]
  refine ⟨hput, hrb, ?_⟩
  intro now1 now2 u1 u2 s1 s2 ns1 grp1 key1 ns2 grp2 key2 req1 req2 cfg1 cfg2 h1 h2 hlt
  rw [hput now1 u1 s1 ns1 grp1 key1 req1 cfg1 h1,
    hput now2 u2 s2 ns2 grp2 key2 req2 cfg2 h2]
  exact hlt

/-- Witness for claim C1 amended: a put at second 100 and a put at second 101 yield
versions 100 and 101, strictly increasing. -/
theorem mutation_version_is_clock_witness :
    (putConfigHandler 100 "u" NewInMemoryStore "n" "g" "k"
      { value := "a", typ := "text" }).body = some cxCfg100 ∧
    (putConfigHandler 101 "u" cxPut1.store "n" "g" "k"
      { value := "b", typ := "text" }).body = some cxCfg101 ∧
    (100 : Int) < 101 ∧
    cxCfg100.version < cxCfg101.version :=
  ⟨by decide, by decide, by decide,
    mutation_version_is_clock.2.2 100 101 "u" "u" NewInMemoryStore cxPut1.store
      "n" "g" "k" "n" "g" "k" { value := "a", typ := "text" } { value := "b", typ := "text" }
      cxCfg100 cxCfg101 (by decide) (by decide) (by decide)⟩

/-- Counterexample to claim C2: putting a key that does not previously exist appends a
history record with operation kind `UPDATE`, not `CREATE` as the claim
requires for a first write. -/
theorem put_history_create_counterexample :
    NewInMemoryStore.Get "n" "g" "k" = none ∧
    cxPut1.status = 201 ∧
    (histList cxPut1.store "n" "g" "k").map ConfigHistory.opType = ["UPDATE"] := by
  decide

/-- Claim C2 amended: every successful put appends exactly one history record to the
key's history, with the version, value and type of the config just written,
but its operation kind is always `UPDATE`, even when the key did not
previously exist. -/
theorem put_appends_update_history (now : Int) (u : String) (s : InMemoryStore)
    (ns grp key : String) (req : PutRequest) (hv : req.value ≠ "")
    (ht : validTypes.contains req.typ = true) :
    (putConfigHandler now u s ns grp key req).status = 201 ∧
    ∃ cfg rec, (putConfigHandler now u s ns grp key req).body = some cfg ∧
      histList (putConfigHandler now u s ns grp key req).store ns grp key
        = histList s ns grp key ++ [rec] ∧
      rec.version = cfg.version ∧ rec.value = cfg.value ∧ rec.typ = cfg.typ ∧
      rec.opType = "UPDATE" := by
  simp only [putConfigHandler, if_neg hv, ht, Bool.not_true, Bool.false_eq_true, if_false]
  exact ⟨True.intro, _, _, rfl, histList_CreateHistory_self _ _, rfl, rfl, rfl, rfl⟩

/-- Witness for claim C2 amended: the first put on the fresh store appends one `UPDATE`
record carrying version 100 and value `a`. -/
theorem put_appends_update_history_witness :
    ("a" : String) ≠ "" ∧ validTypes.contains "text" = true ∧
    ((putConfigHandler 100 "u" NewInMemoryStore "n" "g" "k"
        { value := "a", typ := "text" }).status = 201 ∧
      ∃ cfg rec,
        (putConfigHandler 100 "u" NewInMemoryStore "n" "g" "k"
          { value := "a", typ := "text" }).body = some cfg ∧
        histList (putConfigHandler 100 "u" NewInMemoryStore "n" "g" "k"
            { value := "a", typ := "text" }).store "n" "g" "k"
          = histList NewInMemoryStore "n" "g" "k" ++ [rec] ∧
        rec.version = cfg.version ∧ rec.value = cfg.value ∧ rec.typ = cfg.typ ∧
        rec.opType = "UPDATE") :=
  ⟨by decide, by decide,
    put_appends_update_history 100 "u" NewInMemoryStore "n" "g" "k"
      { value := "a", typ := "text" } (by decide) (by decide)⟩

theorem filter_admin_erase_nonadmin (l : List User) (uname : String)
    (h : ∀ x ∈ l, x.username = uname → ¬ x.role = "admin") :
    (l.filter (fun x => x.username != uname)).filter (fun x => x.role == "admin")
      = l.filter (fun x => x.role == "admin") := by
  rw [List.filter_filter]
  apply List.filter_congr
  intro x hx
  by_cases hr : x.role = "admin"
  · have hne : x.username ≠ uname := fun he => h x hx he hr
    simp [hr, hne]
  · simp [hr]

theorem admins_remain_after_delete (l : List User) (uname : String)
    (hnd : (l.map User.username).Nodup)
    (h2 : 2 ≤ (l.filter (fun x => x.role == "admin")).length) :
    1 ≤ ((l.filter (fun x => x.username != uname)).filter
          (fun x => x.role == "admin")).length := by
  induction l with
  | nil => simp at h2
  | cons a t ih =>
    simp only [List.map_cons, List.nodup_cons] at hnd
    obtain ⟨hnotin, hndt⟩ := hnd
    by_cases ha : a.username = uname
    · have ht : t.filter (fun x => x.username != uname) = t := by
        apply List.filter_eq_self.mpr
        intro x hx
        have hne : x.username ≠ uname := by
          intro he
          exact hnotin (by rw [ha, ← he]; exact List.mem_map_of_mem _ hx)
        simp [hne]
      have hle : (List.filter (fun x => x.role == "admin") (a :: t)).length
          ≤ 1 + (List.filter (fun x => x.role == "admin") t).length := by
        simp only [List.filter_cons]
        split
        · simp only [List.length_cons]
          omega
        · omega
      simp only [List.filter_cons, if_neg (by simp [ha] : ¬ (a.username != uname) = true), ht]
      omega
    · by_cases hr : a.role = "admin"
      · simp only [List.filter_cons,
          if_pos (by simp [ha] : (a.username != uname) = true),
          if_pos (by simp [hr] : (a.role == "admin") = true)]
        simp
      · have h2t : 2 ≤ (t.filter (fun x => x.role == "admin")).length := by
          simpa only [List.filter_cons,
            if_neg (by simp [hr] : ¬ (a.role == "admin") = true)] using h2
        have := ih hndt h2t
        simpa only [List.filter_cons,
          if_pos (by simp [ha] : (a.username != uname) = true),
          if_neg (by simp [hr] : ¬ (a.role == "admin") = true)] using this

theorem deleteUser_state_users (s : InMemoryStore) (uname : String) (u : User)
    (hget : s.GetUser uname = some u) :
    s.DeleteUser uname
      = .ok { s with users := s.users.filter (fun x => x.username != uname) } := by
  simp [InMemoryStore.DeleteUser, hget]

/-- Claim C6: deleting the sole admin-role user fails with 403 and leaves the user
set unchanged; with at least two admins, deleting an admin succeeds (204) and
removes them; and, for user sets with distinct usernames (as a Go map
guarantees), the delete-user handler never brings the admin count below one. -/
theorem delete_last_admin_spec :
    (∀ (s : InMemoryStore) (uname : String) (u : User),
        s.GetUser uname = some u → u.role = "admin" → adminCount s = 1 →
        deleteUserHandler s uname = (403, s)) ∧
    (∀ (s : InMemoryStore) (uname : String) (u : User),
        s.GetUser uname = some u → u.role = "admin" → 2 ≤ adminCount s →
        (deleteUserHandler s uname).1 = 204 ∧
        (deleteUserHandler s uname).2.GetUser uname = none ∧
        (deleteUserHandler s uname).2.users
          = s.users.filter (fun x => x.username != uname)) ∧
    (∀ (s : InMemoryStore) (uname : String),
        (s.users.map User.username).Nodup → 1 ≤ adminCount s →
        1 ≤ adminCount (deleteUserHandler s uname).2) := by
  have hdelOk : ∀ (s : InMemoryStore) (uname : String) (u : User),
      s.GetUser uname = some u →
      ¬ (u.role == "admin" && decide (adminCount s ≤ 1)) = true →
      deleteUserHandler s uname
        = (204, { s with users := s.users.filter (fun x => x.username != uname) }) := by
    intro s uname u hget hcond
    simp [deleteUserHandler, hget, hcond, deleteUser_state_users s uname u hget]
  refine ⟨?_, ?_, ?_⟩
  · intro s uname u hget hrole hcount
    have hcond : (u.role == "admin" && decide (adminCount s ≤ 1)) = true := by
      simp [hrole, hcount]
    simp [deleteUserHandler, hget, hcond]
  · intro s uname u hget hrole hcount
    have hcond : ¬ (u.role == "admin" && decide (adminCount s ≤ 1)) = true := by
      simp [hrole]
      omega
    rw [hdelOk s uname u hget hcond]
    refine ⟨rfl, ?_, rfl⟩
    apply List.find?_eq_none.mpr
    intro x hx
    have hne := (List.mem_filter.mp hx).2
    simp only [bne_iff_ne, ne_eq] at hne
    simp [hne]
  · intro s uname hnd h1
    cases hget : s.GetUser uname with
    | none => simpa [deleteUserHandler, hget] using h1
    | some u =>
      by_cases hcond : (u.role == "admin" && decide (adminCount s ≤ 1)) = true
      · simpa [deleteUserHandler, hget, hcond] using h1
      · rw [hdelOk s uname u hget hcond]
        by_cases hr : u.role = "admin"
        · have h2 : 2 ≤ adminCount s := by
            simp only [hr, beq_self_eq_true, Bool.true_and,
              decide_eq_true_eq, Bool.not_eq_true] at hcond
            simp only [decide_eq_false_iff_not, not_le] at hcond
            omega
          exact admins_remain_after_delete s.users uname hnd h2
        · have hmemu : u ∈ s.users := List.mem_of_find?_eq_some hget
          have hueq : u.username = uname := by
            have := List.find?_some hget
            simpa using this
          have huniq : ∀ x ∈ s.users, x.username = uname → ¬ x.role = "admin" := by
            intro x hx he
            have hxu : x = u :=
              List.inj_on_of_nodup_map hnd hx hmemu (by rw [he, hueq])
            rw [hxu]
            exact hr
          have heq := filter_admin_erase_nonadmin s.users uname huniq
          unfold adminCount InMemoryStore.ListUsers
          rw [heq]
          exact h1

/-- Witness for claim C6: with admins `alice` and `carol`, deleting `alice` returns 204
and removes her; with `alice` as the only admin, deleting her returns 403 and
changes nothing; both states keep at least one admin afterwards. -/
theorem delete_last_admin_spec_witness :
    deleteUserHandler oneAdminStore "alice" = (403, oneAdminStore) ∧
    ((deleteUserHandler twoAdminStore "alice").1 = 204 ∧
      (deleteUserHandler twoAdminStore "alice").2.GetUser "alice" = none ∧
      (deleteUserHandler twoAdminStore "alice").2.users
        = twoAdminStore.users.filter (fun x => x.username != "alice")) ∧
    1 ≤ adminCount (deleteUserHandler twoAdminStore "alice").2 :=
  ⟨delete_last_admin_spec.1 oneAdminStore "alice"
      { id := 1, username := "alice", password := "p", role := "admin",
        status := "active", createdAt := 0, updatedAt := 0 }
      (by decide) (by decide) (by decide),
    delete_last_admin_spec.2.1 twoAdminStore "alice"
      { id := 1, username := "alice", password := "p", role := "admin",
        status := "active", createdAt := 0, updatedAt := 0 }
      (by decide) (by decide) (by decide),
    delete_last_admin_spec.2.2 twoAdminStore "alice" (by decide) (by decide)⟩

theorem lookupA_mem {α : Type} {m : List (String × α)} {k : String} {v : α}
    (h : lookupA m k = some v) : (k, v) ∈ m := by
  unfold lookupA at h
  cases hf : m.find? (fun p => p.1 == k) with
  | none =>
    rw [hf] at h
    exact absurd h (by simp)
  | some pr =>
    obtain ⟨a, b⟩ := pr
    rw [hf] at h
    have hmem := List.mem_of_find?_eq_some hf
    have hkey := List.find?_some hf
    simp only [Option.map_some', Option.some.injEq] at h
    simp only [beq_iff_eq] at hkey
    rw [← h, ← hkey]
    exact hmem

theorem increment_bound (now : Int) (tbl : List (String × TokenUsageRecord))
    (token : String) (limit : Int) (hlim : 1 ≤ limit)
    (hb : UsageBounded limit tbl)
    (hc : CheckTokenRateLimit now tbl token limit = true) :
    UsageBounded limit (IncrementTokenUsage now tbl token).2 := by
  intro p hp
  unfold IncrementTokenUsage at hp
  unfold CheckTokenRateLimit at hc
  cases hlk : lookupA tbl token with
  | none =>
    rw [hlk] at hp
    simp only [Option.getD_none, insertA, List.mem_cons, List.mem_filter] at hp
    rcases hp with rfl | hp
    · have hng : ¬ ((now : Int) > now + 60) := by omega
      simp only [if_neg hng]
      omega
    · exact hb p hp.1
  | some r =>
    rw [hlk] at hp hc
    have hrb : r.count ≤ limit := hb (token, r) (lookupA_mem hlk)
    simp only [Option.getD_some, insertA, List.mem_cons, List.mem_filter] at hp
    rcases hp with rfl | hp
    · by_cases hexp : now > r.expiresAt
      · simp only [if_pos hexp]
        omega
      · simp only [if_neg hexp]
        have hlt : r.count < limit := by
          simp only [if_neg hexp, decide_eq_true_eq] at hc
          exact hc
        omega
    · exact hb p hp.1

theorem authMiddleware_rateLimited_no_increment (now : Int) (st : AuthState)
    (req : AuthRequest) (h : (authMiddleware now st req).1 = .rateLimited) :
    (authMiddleware now st req).2.usage = st.usage := by
  simp only [authMiddleware] at h ⊢
  split_ifs at h ⊢ ; simp_all

theorem authMiddleware_preserves_bound (now : Int) (st : AuthState)
    (req : AuthRequest) (hb : UsageBounded 100 st.usage) :
    UsageBounded 100 (authMiddleware now st req).2.usage := by
  simp only [authMiddleware]
  split_ifs with h1 h2 h3 h4 h5 h6
  · exact hb
  · exact hb
  · exact hb
  · exact hb
  · exact increment_bound now st.usage req.token 100 (by omega) hb (by simpa using h4)
  · exact increment_bound now st.usage req.token 100 (by omega) hb (by simpa using h4)
  · exact increment_bound now st.usage req.token 100 (by omega) hb (by simpa using h4)

theorem expired_window_resets (now : Int) (tbl : List (String × TokenUsageRecord))
    (token : String) (r : TokenUsageRecord) (limit : Int)
    (hlk : lookupA tbl token = some r) (hexp : now > r.expiresAt) :
    CheckTokenRateLimit now tbl token limit = true ∧
    (IncrementTokenUsage now tbl token).1 = 1 ∧
    lookupA (IncrementTokenUsage now tbl token).2 token
      = some { count := 1, lastUsage := now, expiresAt := now + 60 } := by
  refine ⟨?_, ?_, ?_⟩
  · simp [CheckTokenRateLimit, hlk, hexp]
  · simp [IncrementTokenUsage, hlk, hexp]
  · simp [IncrementTokenUsage, hlk, hexp, lookupA_insertA_self]

/-- Claim C5: a request rejected by the auth middleware for exceeding the rate
limit leaves the token usage table untouched; middleware processing keeps
every usage count at or below the threshold of 100 per window; and once a
token's window has expired, the next request is allowed and restarts the
count from zero (the allowed request itself being counted as 1). -/
theorem rate_limit_spec :
    (∀ (now : Int) (st : AuthState) (req : AuthRequest),
        (authMiddleware now st req).1 = .rateLimited →
        (authMiddleware now st req).2.usage = st.usage) ∧
    (∀ (now : Int) (st : AuthState) (req : AuthRequest),
        UsageBounded 100 st.usage →
        UsageBounded 100 (authMiddleware now st req).2.usage) ∧
    (∀ (now : Int) (tbl : List (String × TokenUsageRecord)) (token : String)
        (r : TokenUsageRecord) (limit : Int),
        lookupA tbl token = some r → now > r.expiresAt →
        CheckTokenRateLimit now tbl token limit = true ∧
        (IncrementTokenUsage now tbl token).1 = 1 ∧
        lookupA (IncrementTokenUsage now tbl token).2 token
          = some { count := 1, lastUsage := now, expiresAt := now + 60 }) :=
  ⟨authMiddleware_rateLimited_no_increment, authMiddleware_preserves_bound,
    fun now tbl token r limit hlk hexp =>
      expired_window_resets now tbl token r limit hlk hexp⟩

/-- Witness for claim C5: at second 60 a token already at count 100 in an open window is
rejected with no change to the usage table and the bound 100 is preserved; at
second 111 a token whose window expired at second 110 is allowed again and its
count restarts at 1. -/
theorem rate_limit_spec_witness :
    ((authMiddleware 60 atLimitAuthState tokRequest).1 = .rateLimited ∧
      (authMiddleware 60 atLimitAuthState tokRequest).2.usage
        = atLimitAuthState.usage) ∧
    (UsageBounded 100 atLimitAuthState.usage ∧
      UsageBounded 100 (authMiddleware 60 atLimitAuthState tokRequest).2.usage) ∧
    (lookupA expiredUsage "tok"
        = some { count := 37, lastUsage := 50, expiresAt := 110 } ∧
      (111 : Int) > 110 ∧
      CheckTokenRateLimit 111 expiredUsage "tok" 100 = true ∧
      (IncrementTokenUsage 111 expiredUsage "tok").1 = 1 ∧
      lookupA (IncrementTokenUsage 111 expiredUsage "tok").2 "tok"
        = some { count := 1, lastUsage := 111, expiresAt := 171 }) := by
  have hbound : UsageBounded 100 atLimitAuthState.usage := by
    unfold UsageBounded
    decide
  refine ⟨⟨by decide, rate_limit_spec.1 60 atLimitAuthState tokRequest (by decide)⟩,
    ⟨hbound, rate_limit_spec.2.1 60 atLimitAuthState tokRequest hbound⟩,
    by decide, by decide, ?_⟩
  have h := rate_limit_spec.2.2 111 expiredUsage "tok"
    { count := 37, lastUsage := 50, expiresAt := 110 } 100 (by decide) (by decide)
  exact ⟨h.1, h.2.1, by rw [h.2.2]; decide⟩

end Otter
